import Mathlib

/-!
Verification of the goaldy local-first data layer.

The repository ships the SQLite schema (migrations in `src-tauri/src/lib.rs`);
the tables below are shallow embeddings of those `CREATE TABLE` statements,
with SQLite constraint checking (`CHECK`, `PRIMARY KEY`, `UNIQUE`) made
explicit as fallible insert operations.  The behavioural components that the
schema supports (change capture, sync engine, notification scheduler) are not
in the shipped sources; those definitions are modelled from the specification
and are marked as such in their doc comments.
-/

namespace Goaldy

/-- Errors raised by the embedded SQLite constraint checks. -/
inductive SqlError
  | checkViolation
  | primaryKeyViolation
  | uniqueViolation
deriving DecidableEq

/-- Row of the `auth_state` table (migration v3):
`id INTEGER PRIMARY KEY CHECK (id = 1)` plus nullable session columns. -/
structure AuthStateRow where
  id : Int
  user_id : Option String
  email : Option String
  access_token : Option String
  refresh_token : Option String
  expires_at : Option String
  last_sync_at : Option String
deriving DecidableEq

/-- Insert into `auth_state`, enforcing `CHECK (id = 1)` and the primary key. -/
def insertAuthState (t : List AuthStateRow) (r : AuthStateRow) :
    Except SqlError (List AuthStateRow) :=
  if r.id ≠ 1 then .error .checkViolation
  else if t.any (fun x => x.id == r.id) then .error .primaryKeyViolation
  else .ok (t ++ [r])

/-- Replay a sequence of attempted inserts into `auth_state` starting from the
empty table; a rejected insert leaves the table unchanged. -/
def authStateInserts (rs : List AuthStateRow) : List AuthStateRow :=
  rs.foldl (fun t r => match insertAuthState t r with | .ok u => u | .error _ => t) []

/-- Row of the `notification_preferences` table (migration v5):
`id INTEGER PRIMARY KEY CHECK (id = 1)` plus the user-settings columns.
`INTEGER` flag columns are kept as `Int` as in SQLite. -/
structure NotificationPreferencesRow where
  id : Int
  user_id : Option String
  notifications_enabled : Int
  monthly_checkin_enabled : Int
  monthly_checkin_cron : Option String
  progress_updates_enabled : Int
  progress_updates_cron : Option String
  why_reminders_enabled : Int
  why_reminders_cron : Option String
  quiet_hours_enabled : Int
  quiet_hours_start : Option String
  quiet_hours_end : Option String
  created_at : String
  updated_at : String
deriving DecidableEq

/-- Insert into `notification_preferences`, enforcing `CHECK (id = 1)` and the
primary key. -/
def insertNotificationPreferences (t : List NotificationPreferencesRow)
    (r : NotificationPreferencesRow) : Except SqlError (List NotificationPreferencesRow) :=
  if r.id ≠ 1 then .error .checkViolation
  else if t.any (fun x => x.id == r.id) then .error .primaryKeyViolation
  else .ok (t ++ [r])

/-- Replay a sequence of attempted inserts into `notification_preferences`
starting from the empty table. -/
def notificationPreferencesInserts (rs : List NotificationPreferencesRow) :
    List NotificationPreferencesRow :=
  rs.foldl (fun t r => match insertNotificationPreferences t r with
    | .ok u => u | .error _ => t) []

/-- Row of the `budgets` table (migration v1, extended in v3):
`id TEXT PRIMARY KEY, month TEXT NOT NULL UNIQUE, total_amount REAL NOT NULL,
spending_limit REAL, created_at, updated_at, user_id, deleted_at`.
`REAL` is modelled as `Rat`; no arithmetic on amounts is at stake. -/
structure BudgetRow where
  id : String
  month : String
  total_amount : Rat
  spending_limit : Option Rat
  created_at : String
  updated_at : String
  user_id : Option String
  deleted_at : Option String
deriving DecidableEq

/-- Insert into `budgets`, enforcing the `TEXT PRIMARY KEY` on `id` and the
`UNIQUE` constraint on `month`. -/
def insertBudget (t : List BudgetRow) (b : BudgetRow) :
    Except SqlError (List BudgetRow) :=
  if t.any (fun x => x.id == b.id) then .error .primaryKeyViolation
  else if t.any (fun x => x.month == b.month) then .error .uniqueViolation
  else .ok (t ++ [b])

/-- Replay a sequence of attempted inserts into `budgets` starting from the
empty table. -/
def budgetInserts (bs : List BudgetRow) : List BudgetRow :=
  bs.foldl (fun t b => match insertBudget t b with | .ok u => u | .error _ => t) []

/-- Number of budget rows carrying a given month value. -/
def budgetCountForMonth (t : List BudgetRow) (m : String) : Nat :=
  (t.filter (fun x => x.month == m)).length

/-- Singleton invariant for `auth_state`-shaped tables: at most one row, and
every row has id 1. -/
def SingletonAuth (t : List AuthStateRow) : Prop :=
  t.length ≤ 1 ∧ ∀ x ∈ t, x.id = 1

/-- Singleton invariant for `notification_preferences`-shaped tables. -/
def SingletonPrefs (t : List NotificationPreferencesRow) : Prop :=
  t.length ≤ 1 ∧ ∀ x ∈ t, x.id = 1

/-- The operation tag of a queued mutation (`sync_queue.operation`). -/
inductive LocalOp
  | create
  | update
  | delete
deriving DecidableEq

/-- A row of one of the syncable entity tables, in the uniform shape the spec
calls SyncableRecord: key (table name, record id), a serialized snapshot of the
entity fields, and `created_at` / `updated_at` / `deleted_at`.  Timestamps are
modelled as `Nat`. -/
structure StoreRow where
  table_name : String
  id : String
  fields : String
  created_at : Nat
  updated_at : Nat
  deleted_at : Option Nat
deriving DecidableEq

/-- Row of the `sync_queue` table (migration v1, extended in v3): id,
table_name, record_id, operation, payload, created_at, user_id, attempts,
last_attempt_at, error_message.  The payload — a serialized snapshot of the
record's current field values — is modelled as a `StoreRow`. -/
structure QueueEntry where
  id : String
  table_name : String
  record_id : String
  operation : LocalOp
  payload : StoreRow
  created_at : Nat
  user_id : Option String
  attempts : Nat
  last_attempt_at : Option Nat
  error_message : Option String
deriving DecidableEq

/-- A local write intent handed to Change Capture. -/
structure Mutation where
  table_name : String
  record_id : String
  op : LocalOp
  fields : String
  now : Nat
deriving DecidableEq

/-- Key test for store rows. -/
def rowKeyMatches (tbl rid : String) (r : StoreRow) : Bool :=
  r.table_name == tbl && r.id == rid

/-- Key test for queue entries. -/
def entryKeyMatches (tbl rid : String) (e : QueueEntry) : Bool :=
  e.table_name == tbl && e.record_id == rid

/-- The pending queue entries for one (table, record id). -/
def pendingFor (q : List QueueEntry) (tbl rid : String) : List QueueEntry :=
  q.filter (entryKeyMatches tbl rid)

/-- Look a record up by (table, record id). -/
def lookupRow (store : List StoreRow) (tbl rid : String) : Option StoreRow :=
  store.find? (rowKeyMatches tbl rid)

/-- Modelled from the spec (§4.1, Change Capture is absent from the shipped
sources): apply a local write to the Record Store — create inserts the row
with `created_at = updated_at = now`; update rewrites the fields and bumps
`updated_at`; delete sets the `deleted_at` tombstone instead of removing the
row. -/
def storeWrite (store : List StoreRow) (m : Mutation) : List StoreRow :=
  match m.op with
  | .create => store ++ [⟨m.table_name, m.record_id, m.fields, m.now, m.now, none⟩]
  | .update => store.map fun r =>
      if rowKeyMatches m.table_name m.record_id r then
        { r with fields := m.fields, updated_at := m.now }
      else r
  | .delete => store.map fun r =>
      if rowKeyMatches m.table_name m.record_id r then
        { r with updated_at := m.now, deleted_at := some m.now }
      else r

/-- Operation tag after coalescing a new mutation into a pending entry: a
pending Create stays a Create (the record is still unknown remotely);
otherwise the new operation replaces the old (the Create∘Delete drop case is
handled before this function is consulted). -/
def coalesceOp : LocalOp → LocalOp → LocalOp
  | .create, _ => .create
  | _, n => n

/-- A fresh queue entry for a mutation with no pending entry to coalesce
into: attempts 0, no prior attempt, no error. -/
def freshEntry (m : Mutation) (payload : StoreRow) (newId : String)
    (user : Option String) : QueueEntry :=
  ⟨newId, m.table_name, m.record_id, m.op, payload, m.now, user, 0, none, none⟩

/-- Modelled from the spec (§3, §4.1; the queue-upsert logic is absent from
the shipped sources): a new local mutation coalesces into the existing
pending entry for its (table, record id) — replacing the payload and
operation tag, preserving attempts and created_at — rather than appending a
duplicate; a Delete arriving on a pending Create drops the entry (the record
never reached the remote authority); with no pending entry a fresh one is
appended with attempts 0. -/
def queueUpsert (q : List QueueEntry) (m : Mutation) (payload : StoreRow)
    (newId : String) (user : Option String) : List QueueEntry :=
  match q.find? (entryKeyMatches m.table_name m.record_id) with
  | some e =>
    if e.operation = .create ∧ m.op = .delete then
      q.filter fun x => !(entryKeyMatches m.table_name m.record_id x)
    else
      q.map fun x =>
        if entryKeyMatches m.table_name m.record_id x then
          { x with operation := coalesceOp e.operation m.op, payload := payload }
        else x
  | none => q ++ [freshEntry m payload newId user]

/-- The combined local state Change Capture acts on: the Record Store rows and
the sync queue. -/
structure LocalState where
  store : List StoreRow
  queue : List QueueEntry
deriving DecidableEq

/-- The payload snapshot recorded for a mutation: the record's row state after
the store write. -/
def capturePayload (st : LocalState) (m : Mutation) : StoreRow :=
  (lookupRow (storeWrite st.store m) m.table_name m.record_id).getD
    ⟨m.table_name, m.record_id, m.fields, m.now, m.now, none⟩

/-- Modelled from the spec (§4.1): Change Capture's successful path — write
the row and upsert the coalesced queue entry. -/
def changeCapture (st : LocalState) (m : Mutation) (newId : String)
    (user : Option String) : LocalState :=
  { store := storeWrite st.store m,
    queue := queueUpsert st.queue m (capturePayload st m) newId user }

/-- The error kind of a failed Change Capture transaction. -/
inductive CaptureError
  | transactionFailure
deriving DecidableEq

/-- Modelled from the spec (§4.1, §7): both effects commit in the same local
transaction.  `storeOk` and `queueOk` model whether the underlying store can
commit each sub-write; if either cannot, the whole operation fails with
`TransactionFailure` and the state is returned unchanged. -/
def changeCaptureTx (storeOk queueOk : Bool) (st : LocalState) (m : Mutation)
    (newId : String) (user : Option String) : LocalState × Option CaptureError :=
  if storeOk && queueOk then (changeCapture st m newId user, none)
  else (st, some .transactionFailure)

/-- Apply a sequence of local mutations through Change Capture, deriving the
fresh queue-entry id from the mutation key (its value is irrelevant: a fresh
id is only used when no pending entry exists). -/
def applySeq (user : Option String) (st : LocalState) (ms : List Mutation) : LocalState :=
  ms.foldl (fun s m => changeCapture s m (m.table_name ++ "/" ++ m.record_id) user) st

/-- Modelled from the spec (§3): read queries exclude soft-deleted rows. -/
def readQuery (store : List StoreRow) (tbl : String) : List StoreRow :=
  store.filter fun r => r.table_name == tbl && r.deleted_at.isNone

/-- Modelled from the spec (§3): the sync layer sees every row, tombstoned or
not — soft-deleted records still participate in sync. -/
def syncCandidates (store : List StoreRow) : List StoreRow :=
  store

/-- Modelled from the spec (§4.2, §8; the Sync Engine merge is absent from
the shipped sources): last-writer-wins by `updated_at`, remote wins ties —
the remote version is kept whenever its timestamp is at least the local
one. -/
def mergeLww (localRow remoteRow : StoreRow) : StoreRow :=
  if localRow.updated_at ≤ remoteRow.updated_at then remoteRow else localRow

/-- Outcome of pushing one queue entry to the remote authority. -/
inductive PushResult
  | applied
  | transient (msg : String)
  | permanent (msg : String)
deriving DecidableEq

/-- Modelled from the spec (§4.2; the Sync Engine drain loop is absent from
the shipped sources): process the entries in order; on success drop the
entry and record it applied; on transient failure bump `attempts`, set
`last_attempt_at` and `error_message`, keep the entry pending and stop the
pass; on permanent failure keep the entry with its error recorded and
continue.  Returns (remaining queue, entries applied this pass). -/
def drainLoop (remote : QueueEntry → PushResult) (now : Nat) :
    List QueueEntry → List QueueEntry × List QueueEntry
  | [] => ([], [])
  | e :: rest =>
    match remote e with
    | .applied =>
      let res := drainLoop remote now rest
      (res.1, e :: res.2)
    | .transient msg =>
      ({ e with
         attempts := e.attempts + 1,
         last_attempt_at := some now,
         error_message := some msg } :: rest, [])
    | .permanent msg =>
      let res := drainLoop remote now rest
      ({ e with error_message := some msg } :: res.1, res.2)

/-- Modelled from the spec (§4.2): a drain pass processes the pending entries
in increasing `created_at` order. -/
def drain (remote : QueueEntry → PushResult) (now : Nat) (q : List QueueEntry) :
    List QueueEntry × List QueueEntry :=
  drainLoop remote now (q.mergeSort (fun a b => decide (a.created_at ≤ b.created_at)))

/-- Leap-year test (proleptic Gregorian calendar). -/
def isLeap (y : Nat) : Bool :=
  (y % 4 == 0 && y % 100 != 0) || y % 400 == 0

/-- Days in a month of a year. -/
def daysInMonth (y mo : Nat) : Nat :=
  match mo with
  | 1 => 31
  | 2 => if isLeap y then 29 else 28
  | 3 => 31
  | 4 => 30
  | 5 => 31
  | 6 => 30
  | 7 => 31
  | 8 => 31
  | 9 => 30
  | 10 => 31
  | 11 => 30
  | 12 => 31
  | _ => 31

/-- A wall-clock timestamp at minute granularity (the granularity of the
cron rules the schema stores). -/
structure DateTime where
  year : Nat
  month : Nat
  day : Nat
  hour : Nat
  minute : Nat
deriving DecidableEq

/-- Advance a timestamp by one minute, rolling over hours, days, months and
years by the calendar. -/
def nextMinute (t : DateTime) : DateTime :=
  if t.minute + 1 < 60 then { t with minute := t.minute + 1 }
  else if t.hour + 1 < 24 then { t with hour := t.hour + 1, minute := 0 }
  else if t.day + 1 ≤ daysInMonth t.year t.month then
    { t with day := t.day + 1, hour := 0, minute := 0 }
  else if t.month + 1 ≤ 12 then
    { t with month := t.month + 1, day := 1, hour := 0, minute := 0 }
  else { year := t.year + 1, month := 1, day := 1, hour := 0, minute := 0 }

/-- Day of week (0 = Sunday) by Zeller's congruence. -/
def dayOfWeek (t : DateTime) : Nat :=
  let m := if t.month ≤ 2 then t.month + 12 else t.month
  let y := if t.month ≤ 2 then t.year - 1 else t.year
  (t.day + 13 * (m + 1) / 5 + y % 100 + y % 100 / 4 + y / 100 / 4 + 5 * (y / 100) + 6) % 7

/-- One field of a cron expression: wildcard or restricted to one value. -/
inductive CronField
  | any
  | only (v : Nat)
deriving DecidableEq

/-- Modelled from the spec (§3, §4.3): a five-field cron-style expression —
minute, hour, day-of-month, month, day-of-week — as stored in the
`notification_preferences` cron columns (default `0 9 2 * *` etc.). -/
structure CronExpr where
  minute : CronField
  hour : CronField
  dom : CronField
  month : CronField
  dow : CronField
deriving DecidableEq

/-- A wildcard field matches anything; a restricted field matches its
value. -/
def fieldMatches : CronField → Nat → Bool
  | .any, _ => true
  | .only v, x => v == x

/-- Modelled from the spec (§4.3, §9): a timestamp matches the expression if
all restricted fields match; restricted day-of-month and day-of-week are
OR-combined (standard cron semantics). -/
def cronMatches (c : CronExpr) (t : DateTime) : Bool :=
  fieldMatches c.minute t.minute && fieldMatches c.hour t.hour &&
  fieldMatches c.month t.month &&
  (match c.dom, c.dow with
   | .any, .any => true
   | .any, g => fieldMatches g (dayOfWeek t)
   | f, .any => fieldMatches f t.day
   | f, g => fieldMatches f t.day || fieldMatches g (dayOfWeek t))

/-- Search forward minute-by-minute for the first matching time, bounded by
fuel. -/
def searchFire (c : CronExpr) : Nat → DateTime → Option DateTime
  | 0, _ => none
  | fuel + 1, t =>
    if cronMatches c (nextMinute t) then some (nextMinute t)
    else searchFire c fuel (nextMinute t)

/-- Modelled from the spec (§4.3; the scheduler is absent from the shipped
sources): the earliest timestamp strictly after `after` satisfying the
expression, searched over the following two years of minutes. -/
def computeNextFire (c : CronExpr) (after : DateTime) : Option DateTime :=
  searchFire c 1054080 after

/-- Advance a timestamp by a number of minutes. -/
def addMin : Nat → DateTime → DateTime
  | 0, t => t
  | k + 1, t => addMin k (nextMinute t)

/-- The schema's default monthly check-in cron expression `0 9 2 * *`
(09:00 on the 2nd of every month). -/
def monthlyCheckinCron : CronExpr :=
  ⟨.only 0, .only 9, .only 2, .any, .any⟩

/-- Quiet-hours configuration (`quiet_hours_enabled`, `quiet_hours_start`,
`quiet_hours_end` of `notification_preferences`), with the HH:MM wall-clock
strings as minutes after midnight (22:00 ↦ 1320, 08:00 ↦ 480). -/
structure QuietHours where
  enabled : Bool
  startMin : Nat
  endMin : Nat
deriving DecidableEq

/-- Minutes after midnight of a timestamp. -/
def minuteOfDay (t : DateTime) : Nat :=
  t.hour * 60 + t.minute

/-- Modelled from the spec (§4.3): quiet-hour test handling the
midnight-wrapping interval (start inclusive, end exclusive). -/
def isQuietHour (t : DateTime) (q : QuietHours) : Bool :=
  q.enabled &&
    (if q.startMin ≤ q.endMin then
      decide (q.startMin ≤ minuteOfDay t) && decide (minuteOfDay t < q.endMin)
     else
      decide (q.startMin ≤ minuteOfDay t) || decide (minuteOfDay t < q.endMin))

/-- The same calendar day at a given minute-of-day. -/
def atTime (t : DateTime) (m : Nat) : DateTime :=
  { t with hour := m / 60, minute := m % 60 }

/-- The next calendar day, keeping the clock time. -/
def nextDay (t : DateTime) : DateTime :=
  if t.day + 1 ≤ daysInMonth t.year t.month then { t with day := t.day + 1 }
  else if t.month + 1 ≤ 12 then { t with month := t.month + 1, day := 1 }
  else { year := t.year + 1, month := 1, day := 1, hour := t.hour, minute := t.minute }

/-- Modelled from the spec (§4.3, §8): a fire time inside quiet hours is
advanced to the quiet-hours end time — on the same day when it sits in the
after-midnight segment, on the next day when it sits in the pre-midnight
segment of a wrapping interval. -/
def deferToQuietEnd (t : DateTime) (q : QuietHours) : DateTime :=
  if isQuietHour t q then
    if minuteOfDay t < q.endMin then atTime t q.endMin
    else atTime (nextDay t) q.endMin
  else t

/-- Modelled from the spec (§4.3): move a computed fire time out of quiet
hours, re-validate it against the cron expression and recompute from the
adjusted time if needed; the loop is bounded, `none` meaning
UnschedulableRule. -/
def adjustFire (c : CronExpr) (q : QuietHours) : Nat → DateTime → Option DateTime
  | 0, _ => none
  | k + 1, t =>
    if isQuietHour t q then
      if cronMatches c (deferToQuietEnd t q) then some (deferToQuietEnd t q)
      else
        match computeNextFire c (deferToQuietEnd t q) with
        | none => none
        | some t3 => adjustFire c q k t3
    else some t

/-- Modelled from the spec (§4.3): the fire time `schedule` persists for a
rule from `now` — next cron fire, then quiet-hours adjustment (at most 8
adjustment rounds). -/
def scheduleFireTime (c : CronExpr) (q : QuietHours) (now : DateTime) :
    Option DateTime :=
  match computeNextFire c now with
  | none => none
  | some t => adjustFire c q 8 t

/-- Row of the `scheduled_notifications` table (migration v5).
`scheduled_at` and `sent_at` are minute-granularity timestamps. -/
structure ScheduledNotificationRow where
  id : String
  user_id : Option String
  notification_type : String
  goal_id : Option String
  title : String
  body : String
  scheduled_at : DateTime
  cron_expression : Option String
  sent_at : Option DateTime
  created_at : String
deriving DecidableEq

/-- The unsent scheduled notifications carrying a given (type, goal
reference, minute-truncated scheduled time) key. -/
def unsentDuplicates (tbl : List ScheduledNotificationRow) (ty : String)
    (g : Option String) (ts : DateTime) : List ScheduledNotificationRow :=
  tbl.filter fun s => s.notification_type == ty && s.goal_id == g &&
    s.scheduled_at == ts && s.sent_at.isNone

/-- Modelled from the spec (§4.3): `schedule` computes the adjusted fire
time and persists a new unsent ScheduledNotification unless an unsent entry
with the same (type, goal reference, truncated time) already exists; `none`
is UnschedulableRule. -/
def schedule (c : CronExpr) (q : QuietHours) (now : DateTime) (ty : String)
    (g : Option String) (title body nid : String) (user : Option String)
    (created : String) (tbl : List ScheduledNotificationRow) :
    Option (List ScheduledNotificationRow) :=
  match scheduleFireTime c q now with
  | none => none
  | some t =>
    if (unsentDuplicates tbl ty g t).isEmpty then
      some (tbl ++ [⟨nid, user, ty, g, title, body, t, none, none, created⟩])
    else some tbl

lemma insertAuthState_preserves (t : List AuthStateRow) (r : AuthStateRow)
    (h : SingletonAuth t) :
    SingletonAuth (match insertAuthState t r with | .ok u => u | .error _ => t) := by
  unfold insertAuthState
  by_cases hid : r.id ≠ 1
  · rw [if_pos hid]
    exact h
  · rw [if_neg hid]
    push_neg at hid
    by_cases hany : t.any (fun x => x.id == r.id) = true
    · rw [if_pos hany]
      exact h
    · rw [if_neg hany]
      have hnil : t = [] := by
        cases t with
        | nil => rfl
        | cons a s =>
          exfalso
          apply hany
          simp only [List.any_cons, Bool.or_eq_true, beq_iff_eq]
          exact Or.inl (by rw [h.2 a (by simp), hid])
      subst hnil
      refine ⟨by simp, ?_⟩
      intro x hx
      simp only [List.nil_append, List.mem_singleton] at hx
      rw [hx, hid]

lemma insertPrefs_preserves (t : List NotificationPreferencesRow)
    (r : NotificationPreferencesRow) (h : SingletonPrefs t) :
    SingletonPrefs (match insertNotificationPreferences t r with | .ok u => u | .error _ => t) := by
  unfold insertNotificationPreferences
  by_cases hid : r.id ≠ 1
  · rw [if_pos hid]
    exact h
  · rw [if_neg hid]
    push_neg at hid
    by_cases hany : t.any (fun x => x.id == r.id) = true
    · rw [if_pos hany]
      exact h
    · rw [if_neg hany]
      have hnil : t = [] := by
        cases t with
        | nil => rfl
        | cons a s =>
          exfalso
          apply hany
          simp only [List.any_cons, Bool.or_eq_true, beq_iff_eq]
          exact Or.inl (by rw [h.2 a (by simp), hid])
      subst hnil
      refine ⟨by simp, ?_⟩
      intro x hx
      simp only [List.nil_append, List.mem_singleton] at hx
      rw [hx, hid]

lemma authStateInserts_singleton (rs : List AuthStateRow) :
    SingletonAuth (authStateInserts rs) := by
  have key : ∀ (l : List AuthStateRow) (t : List AuthStateRow), SingletonAuth t →
      SingletonAuth (l.foldl (fun t r =>
        match insertAuthState t r with | .ok u => u | .error _ => t) t) := by
    intro l
    induction l with
    | nil => intro t ht; simpa using ht
    | cons a l ih =>
      intro t ht
      simp only [List.foldl_cons]
      exact ih _ (insertAuthState_preserves t a ht)
  exact key rs [] (by constructor <;> simp)

lemma notificationPreferencesInserts_singleton (rs : List NotificationPreferencesRow) :
    SingletonPrefs (notificationPreferencesInserts rs) := by
  have key : ∀ (l : List NotificationPreferencesRow) (t : List NotificationPreferencesRow),
      SingletonPrefs t →
      SingletonPrefs (l.foldl (fun t r =>
        match insertNotificationPreferences t r with | .ok u => u | .error _ => t) t) := by
    intro l
    induction l with
    | nil => intro t ht; simpa using ht
    | cons a l ih =>
      intro t ht
      simp only [List.foldl_cons]
      exact ih _ (insertPrefs_preserves t a ht)
  exact key rs [] (by constructor <;> simp)

/-- C9: the `notification_preferences` and `auth_state` tables each admit at
most one row at all times: every insert with an id other than 1 is rejected by
the `CHECK (id = 1)` constraint, and every table reachable by a sequence of
inserts from the empty table has at most one row. -/
theorem singleton_tables
    (t : List AuthStateRow) (r : AuthStateRow)
    (p : List NotificationPreferencesRow) (q : NotificationPreferencesRow)
    (hr : r.id ≠ 1) (hq : q.id ≠ 1) :
    insertAuthState t r = .error .checkViolation ∧
    insertNotificationPreferences p q = .error .checkViolation ∧
    (∀ rs : List AuthStateRow, (authStateInserts rs).length ≤ 1) ∧
    (∀ qs : List NotificationPreferencesRow,
      (notificationPreferencesInserts qs).length ≤ 1) := by
  refine ⟨?_, ?_, ?_, ?_⟩
  · simp [insertAuthState, hr]
  · simp [insertNotificationPreferences, hq]
  · intro rs; exact (authStateInserts_singleton rs).1
  · intro qs; exact (notificationPreferencesInserts_singleton qs).1

/-- Witness for C9 at concrete inputs: inserting id 2 into either empty
singleton table is rejected by the CHECK constraint. -/
theorem singleton_tables_witness :
    insertAuthState [] ⟨2, none, none, none, none, none, none⟩ = .error .checkViolation ∧
    insertNotificationPreferences []
      ⟨2, none, 1, 1, none, 1, none, 1, none, 0, none, none, "t0", "t0"⟩ =
      .error .checkViolation ∧
    (∀ rs : List AuthStateRow, (authStateInserts rs).length ≤ 1) ∧
    (∀ qs : List NotificationPreferencesRow,
      (notificationPreferencesInserts qs).length ≤ 1) :=
  singleton_tables [] ⟨2, none, none, none, none, none, none⟩ []
    ⟨2, none, 1, 1, none, 1, none, 1, none, 0, none, none, "t0", "t0"⟩
    (by decide) (by decide)

lemma insertBudget_preserves (t : List BudgetRow) (b : BudgetRow)
    (h : ∀ m, budgetCountForMonth t m ≤ 1) :
    ∀ m, budgetCountForMonth
      (match insertBudget t b with | .ok u => u | .error _ => t) m ≤ 1 := by
  intro m
  unfold insertBudget
  by_cases hid : t.any (fun x => x.id == b.id)
  · simp [hid, h m]
  · by_cases hmo : t.any (fun x => x.month == b.month)
    · simp [hid, hmo, h m]
    · simp only [hid, hmo, Bool.false_eq_true, if_false]
      unfold budgetCountForMonth
      rw [List.filter_append, List.length_append]
      by_cases hbm : b.month = m
      · have hzero : (t.filter (fun x => x.month == m)).length = 0 := by
          rw [List.length_eq_zero, List.filter_eq_nil_iff]
          intro x hx
          simp only [beq_iff_eq]
          intro hxm
          apply hmo
          simp only [List.any_eq_true, beq_iff_eq]
          exact ⟨x, hx, by rw [hxm, hbm]⟩
        simp [hzero, hbm]
      · have hbeq : (b.month == m) = false := by
          simpa using hbm
        have hone : (List.filter (fun x => x.month == m) [b]).length = 0 := by
          simp [List.filter_cons, hbeq]
        rw [hone]
        have := h m
        unfold budgetCountForMonth at this
        omega

lemma budgetInserts_month_unique (bs : List BudgetRow) (m : String) :
    budgetCountForMonth (budgetInserts bs) m ≤ 1 := by
  have key : ∀ (l : List BudgetRow) (t : List BudgetRow),
      (∀ m, budgetCountForMonth t m ≤ 1) →
      ∀ m, budgetCountForMonth (l.foldl (fun t b =>
        match insertBudget t b with | .ok u => u | .error _ => t) t) m ≤ 1 := by
    intro l
    induction l with
    | nil => intro t ht; simpa using ht
    | cons a l ih =>
      intro t ht
      simp only [List.foldl_cons]
      exact ih _ (insertBudget_preserves t a ht)
  exact key bs [] (by intro m; simp [budgetCountForMonth]) m

/-- C10: at most one budget row exists per month value: inserting a budget
whose month equals an existing row's month fails (with a uniqueness or
primary-key error), and every table reachable by inserts from the empty table
has at most one row per month. -/
theorem budgets_month_unique
    (t : List BudgetRow) (b : BudgetRow) (x : BudgetRow)
    (hx : x ∈ t) (hm : x.month = b.month) :
    (∃ e, insertBudget t b = .error e) ∧
    (∀ bs : List BudgetRow, ∀ m, budgetCountForMonth (budgetInserts bs) m ≤ 1) := by
  constructor
  · unfold insertBudget
    by_cases hid : t.any (fun y => y.id == b.id)
    · exact ⟨.primaryKeyViolation, by simp [hid]⟩
    · refine ⟨.uniqueViolation, ?_⟩
      have hmo : t.any (fun y => y.month == b.month) = true := by
        simp only [List.any_eq_true, beq_iff_eq]
        exact ⟨x, hx, hm⟩
      simp [hid, hmo]
  · intro bs m
    exact budgetInserts_month_unique bs m

/-- Witness for C10 at concrete inputs: with one March-2024 budget present,
inserting another budget for the same month fails. -/
theorem budgets_month_unique_witness :
    (∃ e, insertBudget [⟨"b1", "2024-03", 100, none, "t0", "t0", none, none⟩]
      ⟨"b2", "2024-03", 200, none, "t1", "t1", none, none⟩ = .error e) ∧
    (∀ bs : List BudgetRow, ∀ m, budgetCountForMonth (budgetInserts bs) m ≤ 1) :=
  budgets_month_unique [⟨"b1", "2024-03", 100, none, "t0", "t0", none, none⟩]
    ⟨"b2", "2024-03", 200, none, "t1", "t1", none, none⟩
    ⟨"b1", "2024-03", 100, none, "t0", "t0", none, none⟩ (by simp) rfl

lemma find?_of_filter_eq_singleton {α : Type} {p : α → Bool} {q : List α} {e : α}
    (h : q.filter p = [e]) : q.find? p = some e := by
  induction q with
  | nil => simp at h
  | cons a q ih =>
    by_cases hp : p a = true
    · rw [List.filter_cons, if_pos hp] at h
      rw [List.find?_cons_of_pos _ hp]
      simp only [List.cons.injEq] at h
      exact congrArg some h.1
    · rw [List.filter_cons, if_neg hp] at h
      rw [List.find?_cons_of_neg _ (by simpa using hp)]
      exact ih h

lemma filter_map_of_pred_inv {α : Type} (f : α → α) (p : α → Bool)
    (q : List α) (hpf : ∀ x, p (f x) = p x) :
    (q.map f).filter p = (q.filter p).map f := by
  induction q with
  | nil => rfl
  | cons a q ih =>
    simp only [List.map_cons, List.filter_cons, hpf a]
    by_cases hp : p a = true
    · rw [if_pos hp, if_pos hp, List.map_cons, ih]
    · rw [if_neg hp, if_neg hp, ih]

lemma queueUpsert_none (q : List QueueEntry) (m : Mutation) (payload : StoreRow)
    (nid : String) (u : Option String)
    (hf : q.find? (entryKeyMatches m.table_name m.record_id) = none) :
    queueUpsert q m payload nid u = q ++ [freshEntry m payload nid u] := by
  unfold queueUpsert
  rw [hf]

lemma queueUpsert_drop (q : List QueueEntry) (m : Mutation) (payload : StoreRow)
    (nid : String) (u : Option String) (e : QueueEntry)
    (hf : q.find? (entryKeyMatches m.table_name m.record_id) = some e)
    (he : e.operation = .create) (hm : m.op = .delete) :
    queueUpsert q m payload nid u =
      q.filter fun x => !(entryKeyMatches m.table_name m.record_id x) := by
  unfold queueUpsert
  simp only [hf]
  rw [if_pos ⟨he, hm⟩]

lemma queueUpsert_coalesce (q : List QueueEntry) (m : Mutation) (payload : StoreRow)
    (nid : String) (u : Option String) (e : QueueEntry)
    (hf : q.find? (entryKeyMatches m.table_name m.record_id) = some e)
    (hnd : ¬(e.operation = .create ∧ m.op = .delete)) :
    queueUpsert q m payload nid u = q.map fun x =>
      if entryKeyMatches m.table_name m.record_id x then
        { x with operation := coalesceOp e.operation m.op, payload := payload }
      else x := by
  unfold queueUpsert
  simp only [hf]
  rw [if_neg hnd]

lemma entryKeyMatches_update (tbl rid : String) (o : LocalOp) (p : StoreRow)
    (x : QueueEntry) :
    entryKeyMatches tbl rid { x with operation := o, payload := p } =
      entryKeyMatches tbl rid x := rfl

lemma pendingFor_append_one (q : List QueueEntry) (e : QueueEntry) (tbl rid : String) :
    pendingFor (q ++ [e]) tbl rid =
      pendingFor q tbl rid ++ if entryKeyMatches tbl rid e then [e] else [] := by
  unfold pendingFor
  rw [List.filter_append]
  congr 1
  by_cases h : entryKeyMatches tbl rid e = true
  · rw [if_pos h]
    simp [List.filter_cons, h]
  · rw [if_neg h]
    simp [List.filter_cons, h]

lemma pendingFor_map_coalesce (q : List QueueEntry) (mtbl mrid tbl rid : String)
    (o : LocalOp) (p : StoreRow) :
    pendingFor (q.map fun x => if entryKeyMatches mtbl mrid x then
      { x with operation := o, payload := p } else x) tbl rid =
    (pendingFor q tbl rid).map fun x => if entryKeyMatches mtbl mrid x then
      { x with operation := o, payload := p } else x := by
  unfold pendingFor
  refine filter_map_of_pred_inv _ _ q (fun x => ?_)
  by_cases h : entryKeyMatches mtbl mrid x = true
  · rw [if_pos h]
    exact entryKeyMatches_update tbl rid o p x
  · rw [if_neg h]

lemma pendingFor_queueUpsert_le (q : List QueueEntry) (m : Mutation)
    (payload : StoreRow) (nid : String) (u : Option String) (tbl rid : String)
    (h : (pendingFor q tbl rid).length ≤ 1) :
    (pendingFor (queueUpsert q m payload nid u) tbl rid).length ≤ 1 := by
  cases hf : q.find? (entryKeyMatches m.table_name m.record_id) with
  | none =>
    rw [queueUpsert_none q m payload nid u hf, pendingFor_append_one,
      List.length_append]
    by_cases hk : entryKeyMatches tbl rid (freshEntry m payload nid u) = true
    · rw [if_pos hk]
      have hkey : m.table_name = tbl ∧ m.record_id = rid := by
        unfold entryKeyMatches freshEntry at hk
        simpa using hk
      have h0 : pendingFor q tbl rid = [] := by
        unfold pendingFor
        rw [List.filter_eq_nil_iff]
        intro x hx
        rcases hkey with ⟨h1, h2⟩
        subst h1
        subst h2
        exact List.find?_eq_none.mp hf x hx
      rw [h0]
      simp
    · rw [if_neg hk]
      simpa using h
  | some e =>
    by_cases hnd : e.operation = .create ∧ m.op = .delete
    · rw [queueUpsert_drop q m payload nid u e hf hnd.1 hnd.2]
      have hsub : List.Sublist
          (pendingFor (q.filter (fun x => !(entryKeyMatches m.table_name m.record_id x))) tbl rid)
          (pendingFor q tbl rid) :=
        List.Sublist.filter _ (List.filter_sublist q)
      exact le_trans hsub.length_le h
    · rw [queueUpsert_coalesce q m payload nid u e hf hnd,
        pendingFor_map_coalesce, List.length_map]
      exact h

lemma pendingFor_queueUpsert_coalesce_eq (q : List QueueEntry) (m : Mutation)
    (payload : StoreRow) (nid : String) (u : Option String) (e : QueueEntry)
    (hq : pendingFor q m.table_name m.record_id = [e])
    (hnd : ¬(e.operation = .create ∧ m.op = .delete)) :
    pendingFor (queueUpsert q m payload nid u) m.table_name m.record_id =
      [{ e with operation := coalesceOp e.operation m.op, payload := payload }] := by
  have hf : q.find? (entryKeyMatches m.table_name m.record_id) = some e :=
    find?_of_filter_eq_singleton hq
  rw [queueUpsert_coalesce q m payload nid u e hf hnd,
    pendingFor_map_coalesce, hq]
  have he : entryKeyMatches m.table_name m.record_id e = true := by
    have hmem : e ∈ pendingFor q m.table_name m.record_id := by
      rw [hq]
      simp
    exact List.of_mem_filter hmem
  simp [he]

lemma pendingFor_queueUpsert_fresh (q : List QueueEntry) (m : Mutation)
    (payload : StoreRow) (nid : String) (u : Option String)
    (hq : pendingFor q m.table_name m.record_id = []) :
    pendingFor (queueUpsert q m payload nid u) m.table_name m.record_id =
      [freshEntry m payload nid u] := by
  have hf : q.find? (entryKeyMatches m.table_name m.record_id) = none := by
    rw [List.find?_eq_none]
    intro x hx
    unfold pendingFor at hq
    rw [List.filter_eq_nil_iff] at hq
    exact hq x hx
  rw [queueUpsert_none q m payload nid u hf, pendingFor_append_one, hq]
  have hk : entryKeyMatches m.table_name m.record_id (freshEntry m payload nid u) = true := by
    unfold entryKeyMatches freshEntry
    simp
  rw [if_pos hk]
  simp

lemma pendingFor_queueUpsert_drop_eq (q : List QueueEntry) (m : Mutation)
    (payload : StoreRow) (nid : String) (u : Option String) (e : QueueEntry)
    (hq : pendingFor q m.table_name m.record_id = [e])
    (he : e.operation = .create) (hm : m.op = .delete) :
    pendingFor (queueUpsert q m payload nid u) m.table_name m.record_id = [] := by
  have hf : q.find? (entryKeyMatches m.table_name m.record_id) = some e :=
    find?_of_filter_eq_singleton hq
  rw [queueUpsert_drop q m payload nid u e hf he hm]
  unfold pendingFor
  rw [List.filter_filter]
  simp

lemma changeCapture_create_empty (m : Mutation) (nid : String) (u : Option String)
    (hop : m.op = .create) :
    changeCapture ⟨[], []⟩ m nid u =
      ⟨[⟨m.table_name, m.record_id, m.fields, m.now, m.now, none⟩],
       [freshEntry m ⟨m.table_name, m.record_id, m.fields, m.now, m.now, none⟩ nid u]⟩ := by
  unfold changeCapture capturePayload lookupRow storeWrite queueUpsert
  simp only [hop]
  simp [rowKeyMatches, entryKeyMatches]

lemma changeCapture_update_good (tbl rid : String) (st : LocalState) (r : StoreRow)
    (e : QueueEntry) (m : Mutation) (nid : String) (u : Option String)
    (hst : st.store = [r]) (hq : st.queue = [e])
    (hr : rowKeyMatches tbl rid r = true) (he : entryKeyMatches tbl rid e = true)
    (ho : e.operation = .create)
    (hm1 : m.table_name = tbl) (hm2 : m.record_id = rid) (hop : m.op = .update) :
    changeCapture st m nid u =
      ⟨[{ r with fields := m.fields, updated_at := m.now }],
       [{ e with
          operation := .create,
          payload := { r with fields := m.fields, updated_at := m.now } }]⟩ := by
  subst hm1
  subst hm2
  have hstore : storeWrite st.store m = [{ r with fields := m.fields, updated_at := m.now }] := by
    unfold storeWrite
    simp only [hop, hst]
    simp [hr]
  have hkey2 : rowKeyMatches m.table_name m.record_id
      { r with fields := m.fields, updated_at := m.now } = true := hr
  have hlook : lookupRow (storeWrite st.store m) m.table_name m.record_id =
      some { r with fields := m.fields, updated_at := m.now } := by
    rw [hstore]
    unfold lookupRow
    exact List.find?_cons_of_pos _ hkey2
  have hpay : capturePayload st m = { r with fields := m.fields, updated_at := m.now } := by
    unfold capturePayload
    rw [hlook]
    rfl
  have hfind : st.queue.find? (entryKeyMatches m.table_name m.record_id) = some e := by
    rw [hq]
    exact List.find?_cons_of_pos _ he
  have hqueue : queueUpsert st.queue m (capturePayload st m) nid u =
      [{ e with operation := coalesceOp e.operation m.op, payload := capturePayload st m }] := by
    rw [queueUpsert_coalesce st.queue m _ nid u e hfind (by rw [hop]; simp), hq]
    simp [he]
  unfold changeCapture
  rw [hstore, hqueue, hpay, ho, hop]
  rfl

lemma applySeq_good (tbl rid : String) (u : Option String) :
    ∀ (rest : List Mutation) (st : LocalState) (r : StoreRow) (e : QueueEntry),
    (∀ m ∈ rest, m.table_name = tbl ∧ m.record_id = rid ∧ m.op = .update) →
    st.store = [r] → st.queue = [e] →
    rowKeyMatches tbl rid r = true → entryKeyMatches tbl rid e = true →
    e.payload = r → e.attempts = 0 → e.operation = .create →
    ∃ r2 e2, (applySeq u st rest).store = [r2] ∧ (applySeq u st rest).queue = [e2] ∧
      rowKeyMatches tbl rid r2 = true ∧ entryKeyMatches tbl rid e2 = true ∧
      e2.payload = r2 ∧ e2.attempts = 0 ∧ e2.operation = .create ∧
      ((rest = [] ∧ r2 = r) ∨
        (∃ h : rest ≠ [], r2.fields = (rest.getLast h).fields ∧
          r2.updated_at = (rest.getLast h).now)) := by
  intro rest
  induction rest with
  | nil =>
    intro st r e hall hst hq hr he hp ha ho
    exact ⟨r, e, hst, hq, hr, he, hp, ha, ho, Or.inl ⟨rfl, rfl⟩⟩
  | cons m rest ih =>
    intro st r e hall hst hq hr he hp ha ho
    obtain ⟨hm1, hm2, hm3⟩ := hall m (by simp)
    have hstep := changeCapture_update_good tbl rid st r e m
      (m.table_name ++ "/" ++ m.record_id) u hst hq hr he ho hm1 hm2 hm3
    have happ : applySeq u st (m :: rest) =
        applySeq u (changeCapture st m (m.table_name ++ "/" ++ m.record_id) u) rest := rfl
    rw [happ, hstep]
    obtain ⟨r2, e2, h1, h2, h3, h4, h5, h6, h7, h8⟩ :=
      ih ⟨[{ r with fields := m.fields, updated_at := m.now }],
          [{ e with
             operation := .create,
             payload := { r with fields := m.fields, updated_at := m.now } }]⟩
        { r with fields := m.fields, updated_at := m.now }
        { e with
          operation := .create,
          payload := { r with fields := m.fields, updated_at := m.now } }
        (fun m2 hm2x => hall m2 (by simp [hm2x])) rfl rfl hr he rfl ha rfl
    refine ⟨r2, e2, h1, h2, h3, h4, h5, h6, h7, Or.inr ⟨List.cons_ne_nil m rest, ?_, ?_⟩⟩
    · rcases h8 with ⟨hrest, hre⟩ | ⟨hne, hf, hu⟩
      · subst hrest
        rw [hre]
        rfl
      · rw [List.getLast_cons hne]
        exact hf
    · rcases h8 with ⟨hrest, hre⟩ | ⟨hne, hf, hu⟩
      · subst hrest
        rw [hre]
        rfl
      · rw [List.getLast_cons hne]
        exact hu

/-- C1 (amended): a local mutation never appends a duplicate pending entry:
the per-(table, record id) pending count stays at most one; a mutation
coalesces into the existing pending entry, replacing its payload and
operation while preserving attempts and created_at; with no pending entry a
fresh one is appended; a delete arriving on a pending Create drops the entry
(zero remain — the one exception to "exactly one"); and an offline
create-then-updates sequence ends with exactly one pending entry whose
payload equals the row state produced by the latest mutation. -/
theorem sync_queue_coalescing :
    (∀ (st : LocalState) (m : Mutation) (nid : String) (u : Option String) (tbl rid : String),
      (pendingFor st.queue tbl rid).length ≤ 1 →
      (pendingFor (changeCapture st m nid u).queue tbl rid).length ≤ 1) ∧
    (∀ (st : LocalState) (m : Mutation) (nid : String) (u : Option String) (e : QueueEntry),
      pendingFor st.queue m.table_name m.record_id = [e] →
      ¬(e.operation = .create ∧ m.op = .delete) →
      pendingFor (changeCapture st m nid u).queue m.table_name m.record_id =
        [{ e with
           operation := coalesceOp e.operation m.op,
           payload := capturePayload st m }]) ∧
    (∀ (st : LocalState) (m : Mutation) (nid : String) (u : Option String),
      pendingFor st.queue m.table_name m.record_id = [] →
      pendingFor (changeCapture st m nid u).queue m.table_name m.record_id =
        [freshEntry m (capturePayload st m) nid u]) ∧
    (∀ (st : LocalState) (m : Mutation) (nid : String) (u : Option String) (e : QueueEntry),
      pendingFor st.queue m.table_name m.record_id = [e] →
      e.operation = .create → m.op = .delete →
      pendingFor (changeCapture st m nid u).queue m.table_name m.record_id = []) ∧
    (∀ (tbl rid : String) (u : Option String) (m0 : Mutation) (rest : List Mutation),
      m0.table_name = tbl → m0.record_id = rid → m0.op = .create →
      (∀ m ∈ rest, m.table_name = tbl ∧ m.record_id = rid ∧ m.op = .update) →
      ∃ r e, (applySeq u ⟨[], []⟩ (m0 :: rest)).store = [r] ∧
        pendingFor (applySeq u ⟨[], []⟩ (m0 :: rest)).queue tbl rid = [e] ∧
        e.payload = r ∧ e.attempts = 0 ∧
        r.fields = ((m0 :: rest).getLast (List.cons_ne_nil m0 rest)).fields ∧
        r.updated_at = ((m0 :: rest).getLast (List.cons_ne_nil m0 rest)).now) := by
  refine ⟨?_, ?_, ?_, ?_, ?_⟩
  · intro st m nid u tbl rid h
    exact pendingFor_queueUpsert_le st.queue m (capturePayload st m) nid u tbl rid h
  · intro st m nid u e hq hnd
    exact pendingFor_queueUpsert_coalesce_eq st.queue m (capturePayload st m) nid u e hq hnd
  · intro st m nid u hq
    exact pendingFor_queueUpsert_fresh st.queue m (capturePayload st m) nid u hq
  · intro st m nid u e hq he hm
    exact pendingFor_queueUpsert_drop_eq st.queue m (capturePayload st m) nid u e hq he hm
  · intro tbl rid u m0 rest h1 h2 h3 hall
    have hbase := changeCapture_create_empty m0 (m0.table_name ++ "/" ++ m0.record_id) u h3
    have happ : applySeq u ⟨[], []⟩ (m0 :: rest) =
        applySeq u (changeCapture ⟨[], []⟩ m0 (m0.table_name ++ "/" ++ m0.record_id) u) rest := rfl
    rw [happ, hbase]
    have hrow : rowKeyMatches tbl rid
        (⟨m0.table_name, m0.record_id, m0.fields, m0.now, m0.now, none⟩ : StoreRow) = true := by
      subst h1
      subst h2
      unfold rowKeyMatches
      simp
    have hent : entryKeyMatches tbl rid
        (freshEntry m0 ⟨m0.table_name, m0.record_id, m0.fields, m0.now, m0.now, none⟩
          (m0.table_name ++ "/" ++ m0.record_id) u) = true := by
      subst h1
      subst h2
      unfold entryKeyMatches freshEntry
      simp
    obtain ⟨r2, e2, g1, g2, g3, g4, g5, g6, g7, g8⟩ :=
      applySeq_good tbl rid u rest
        ⟨[⟨m0.table_name, m0.record_id, m0.fields, m0.now, m0.now, none⟩],
         [freshEntry m0 ⟨m0.table_name, m0.record_id, m0.fields, m0.now, m0.now, none⟩
            (m0.table_name ++ "/" ++ m0.record_id) u]⟩
        ⟨m0.table_name, m0.record_id, m0.fields, m0.now, m0.now, none⟩
        (freshEntry m0 ⟨m0.table_name, m0.record_id, m0.fields, m0.now, m0.now, none⟩
          (m0.table_name ++ "/" ++ m0.record_id) u)
        hall rfl rfl hrow hent rfl rfl h3
    refine ⟨r2, e2, g1, ?_, g5, g6, ?_, ?_⟩
    · rw [g2]
      unfold pendingFor
      simp [List.filter_cons, g4]
    · rcases g8 with ⟨hrest, hre⟩ | ⟨hne, hf, hu⟩
      · subst hrest
        rw [hre]
        rfl
      · rw [List.getLast_cons hne]
        exact hf
    · rcases g8 with ⟨hrest, hre⟩ | ⟨hne, hf, hu⟩
      · subst hrest
        rw [hre]
        rfl
      · rw [List.getLast_cons hne]
        exact hu

/-- Counterexample to C1 as stated: for the offline sequence create-then-
delete on one record, the queue ends with zero pending entries for that
record, not exactly one — the spec's §4.1 Delete-after-Create rule drops the
entry of a record the remote authority never saw. -/
theorem sync_queue_coalescing_counterexample :
    (pendingFor (applySeq none ⟨[], []⟩
      [⟨"t", "r", .create, "f1", 1⟩, ⟨"t", "r", .delete, "f1", 2⟩]).queue "t" "r").length ≠ 1 := by
  decide

/-- Witness for C1 at a concrete offline create-then-update sequence: one
pending entry remains, its payload the state of the latest mutation. -/
theorem sync_queue_coalescing_witness :
    ∃ r e,
      (applySeq none ⟨[], []⟩
        ((⟨"t", "r", .create, "f1", 1⟩ : Mutation) :: [⟨"t", "r", .update, "f2", 2⟩])).store = [r] ∧
      pendingFor (applySeq none ⟨[], []⟩
        ((⟨"t", "r", .create, "f1", 1⟩ : Mutation) :: [⟨"t", "r", .update, "f2", 2⟩])).queue "t" "r" = [e] ∧
      e.payload = r ∧ e.attempts = 0 ∧
      r.fields = (((⟨"t", "r", .create, "f1", 1⟩ : Mutation) :: [⟨"t", "r", .update, "f2", 2⟩]).getLast
        (List.cons_ne_nil _ _)).fields ∧
      r.updated_at = (((⟨"t", "r", .create, "f1", 1⟩ : Mutation) :: [⟨"t", "r", .update, "f2", 2⟩]).getLast
        (List.cons_ne_nil _ _)).now :=
  sync_queue_coalescing.2.2.2.2 "t" "r" none ⟨"t", "r", .create, "f1", 1⟩
    [⟨"t", "r", .update, "f2", 2⟩] rfl rfl rfl (by decide)

/-- C4: Change Capture commits the Record Store write and the QueueEntry
upsert in one local transaction — either both effects are visible and no
error is reported, or the operation fails with TransactionFailure and the
state is unchanged. -/
theorem change_capture_atomic (storeOk queueOk : Bool) (st : LocalState)
    (m : Mutation) (nid : String) (u : Option String) :
    (storeOk = true ∧ queueOk = true ∧
      changeCaptureTx storeOk queueOk st m nid u =
        (⟨storeWrite st.store m, queueUpsert st.queue m (capturePayload st m) nid u⟩, none)) ∨
    ((storeOk = false ∨ queueOk = false) ∧
      changeCaptureTx storeOk queueOk st m nid u = (st, some .transactionFailure)) := by
  cases storeOk <;> cases queueOk <;> simp [changeCaptureTx, changeCapture]

/-- C6 (amended): deleting a syncable record retains the row with
`deleted_at` set to the deletion time instead of removing it; afterwards
every row of the record is tombstoned, the record is excluded from every
read query, and the tombstoned rows remain visible to the sync layer.  When
the record's pending queue entry (if any) is not a Create, a pending Delete
entry carrying the tombstoned payload exists afterwards; when the pending
entry is a Create — a record created offline that the remote never saw —
the entry is dropped and no pending entry remains, so the deletion is never
pushed. -/
theorem soft_delete_semantics (st : LocalState) (m : Mutation) (nid : String)
    (u : Option String) (hop : m.op = .delete)
    (hrow : ∃ r ∈ st.store, rowKeyMatches m.table_name m.record_id r = true) :
    (changeCapture st m nid u).store.length = st.store.length ∧
    (∀ x ∈ (changeCapture st m nid u).store,
      rowKeyMatches m.table_name m.record_id x = true → x.deleted_at = some m.now) ∧
    (∃ x ∈ (changeCapture st m nid u).store,
      rowKeyMatches m.table_name m.record_id x = true) ∧
    (∀ x ∈ readQuery (changeCapture st m nid u).store m.table_name,
      x.id ≠ m.record_id) ∧
    (∀ x ∈ (changeCapture st m nid u).store,
      x ∈ syncCandidates (changeCapture st m nid u).store) ∧
    ((∀ e, st.queue.find? (entryKeyMatches m.table_name m.record_id) = some e →
        e.operation ≠ .create) →
      ∃ e ∈ pendingFor (changeCapture st m nid u).queue m.table_name m.record_id,
        e.operation = .delete ∧ e.payload.deleted_at = some m.now) ∧
    (∀ e, st.queue.find? (entryKeyMatches m.table_name m.record_id) = some e →
      e.operation = .create →
      pendingFor (changeCapture st m nid u).queue m.table_name m.record_id = []) := by
  have hsw : storeWrite st.store m = st.store.map (fun r =>
      if rowKeyMatches m.table_name m.record_id r then
        { r with updated_at := m.now, deleted_at := some m.now }
      else r) := by
    unfold storeWrite
    simp only [hop]
  have hdel : ∀ x ∈ storeWrite st.store m,
      rowKeyMatches m.table_name m.record_id x = true → x.deleted_at = some m.now := by
    rw [hsw]
    intro x hx hk
    obtain ⟨y, hy, hfy⟩ := List.mem_map.mp hx
    by_cases hky : rowKeyMatches m.table_name m.record_id y = true
    · rw [if_pos hky] at hfy
      rw [← hfy]
    · rw [if_neg hky] at hfy
      rw [← hfy] at hk
      exact absurd hk hky
  have hex : ∃ x ∈ storeWrite st.store m,
      rowKeyMatches m.table_name m.record_id x = true := by
    obtain ⟨r, hr, hkr⟩ := hrow
    refine ⟨{ r with updated_at := m.now, deleted_at := some m.now }, ?_, hkr⟩
    rw [hsw]
    exact List.mem_map.mpr ⟨r, hr, if_pos hkr⟩
  have hcap : (capturePayload st m).deleted_at = some m.now := by
    unfold capturePayload lookupRow
    cases hlk : (storeWrite st.store m).find? (rowKeyMatches m.table_name m.record_id) with
    | none =>
      exfalso
      obtain ⟨x, hx, hkx⟩ := hex
      exact absurd hkx (by simpa using List.find?_eq_none.mp hlk x hx)
    | some x0 =>
      have hk0 : rowKeyMatches m.table_name m.record_id x0 = true := List.find?_some hlk
      have hm0 : x0 ∈ storeWrite st.store m := List.mem_of_find?_eq_some hlk
      simpa using hdel x0 hm0 hk0
  refine ⟨?_, hdel, hex, ?_, ?_, ?_, ?_⟩
  · show (storeWrite st.store m).length = st.store.length
    rw [hsw]
    exact List.length_map st.store _
  · intro x hx heq
    have hx2 := List.mem_filter.mp hx
    have hpred := hx2.2
    simp only [Bool.and_eq_true] at hpred
    have hkx : rowKeyMatches m.table_name m.record_id x = true := by
      unfold rowKeyMatches
      simp only [Bool.and_eq_true]
      exact ⟨hpred.1, by simpa using heq⟩
    have hdx := hdel x hx2.1 hkx
    have hnone := hpred.2
    rw [hdx] at hnone
    simp at hnone
  · intro x hx
    exact hx
  · intro hnc
    cases hf : st.queue.find? (entryKeyMatches m.table_name m.record_id) with
    | none =>
      have hqu : queueUpsert st.queue m (capturePayload st m) nid u =
          st.queue ++ [freshEntry m (capturePayload st m) nid u] :=
        queueUpsert_none st.queue m (capturePayload st m) nid u hf
      refine ⟨freshEntry m (capturePayload st m) nid u, ?_, hop, hcap⟩
      show _ ∈ pendingFor (queueUpsert st.queue m (capturePayload st m) nid u) _ _
      rw [hqu, pendingFor_append_one]
      have hk : entryKeyMatches m.table_name m.record_id
          (freshEntry m (capturePayload st m) nid u) = true := by
        unfold entryKeyMatches freshEntry
        simp
      rw [if_pos hk]
      exact List.mem_append_right _ (by simp)
    | some e =>
      have hnd : ¬(e.operation = .create ∧ m.op = .delete) := fun hc => hnc e hf hc.1
      have hqu := queueUpsert_coalesce st.queue m (capturePayload st m) nid u e hf hnd
      have hke : entryKeyMatches m.table_name m.record_id e = true := List.find?_some hf
      have hme : e ∈ st.queue := List.mem_of_find?_eq_some hf
      have hco : coalesceOp e.operation m.op = .delete := by
        cases h2 : e.operation with
        | create => exact absurd h2 (hnc e hf)
        | update =>
          rw [hop]
          rfl
        | delete =>
          rw [hop]
          rfl
      refine ⟨{ e with
        operation := coalesceOp e.operation m.op,
        payload := capturePayload st m }, ?_, hco, hcap⟩
      show _ ∈ pendingFor (queueUpsert st.queue m (capturePayload st m) nid u) _ _
      rw [hqu]
      unfold pendingFor
      refine List.mem_filter.mpr ⟨?_, hke⟩
      refine List.mem_map.mpr ⟨e, hme, ?_⟩
      rw [if_pos hke]
  · intro e hf he
    show pendingFor (queueUpsert st.queue m (capturePayload st m) nid u) _ _ = []
    rw [queueUpsert_drop st.queue m (capturePayload st m) nid u e hf he hop]
    unfold pendingFor
    rw [List.filter_filter]
    simp

/-- Counterexample to C6 as stated: deleting a record created offline (its
pending queue entry is a Create) still tombstones the row, but the pending
entry is dropped — zero pending entries remain for the record, so the
deletion is never pushed to the remote and the record does not still
participate in sync. -/
theorem soft_delete_semantics_counterexample :
    (∃ x ∈ (changeCapture
        ⟨[⟨"t", "r", "f0", 1, 1, none⟩],
         [⟨"q0", "t", "r", .create, ⟨"t", "r", "f0", 1, 1, none⟩, 1, none, 0, none, none⟩]⟩
        ⟨"t", "r", .delete, "f0", 5⟩ "q1" none).store,
      rowKeyMatches "t" "r" x = true ∧ x.deleted_at = some 5) ∧
    pendingFor (changeCapture
        ⟨[⟨"t", "r", "f0", 1, 1, none⟩],
         [⟨"q0", "t", "r", .create, ⟨"t", "r", "f0", 1, 1, none⟩, 1, none, 0, none, none⟩]⟩
        ⟨"t", "r", .delete, "f0", 5⟩ "q1" none).queue "t" "r" = [] := by
  decide

/-- Witness for C6: deleting an existing record in a concrete one-row store
with an empty queue leaves a pending Delete entry with tombstoned payload. -/
theorem soft_delete_semantics_witness :
    ∃ e ∈ pendingFor (changeCapture ⟨[⟨"t", "r", "f0", 0, 0, none⟩], []⟩
        ⟨"t", "r", .delete, "f0", 5⟩ "q1" none).queue "t" "r",
      e.operation = .delete ∧ e.payload.deleted_at = some 5 :=
  (soft_delete_semantics ⟨[⟨"t", "r", "f0", 0, 0, none⟩], []⟩
    ⟨"t", "r", .delete, "f0", 5⟩ "q1" none rfl (by decide)).2.2.2.2.2.1
    (by
      intro e h
      rw [List.find?_nil] at h
      exact absurd h (by simp))

/-- C2: the merge of a local pending payload and a remote record resolves by
last-writer-wins on `updated_at`: the strictly newer side wins, and on a tie
the remote payload wins. -/
theorem merge_last_writer_wins (l r : StoreRow) :
    (l.updated_at < r.updated_at → mergeLww l r = r) ∧
    (r.updated_at < l.updated_at → mergeLww l r = l) ∧
    (l.updated_at = r.updated_at → mergeLww l r = r) := by
  refine ⟨?_, ?_, ?_⟩ <;> intro h <;> unfold mergeLww
  · rw [if_pos (le_of_lt h)]
  · rw [if_neg (not_le.mpr h)]
  · rw [if_pos (le_of_eq h)]

/-- Witness for C2 on concrete timestamps 1 vs 2, 3 vs 2 and the 2 vs 2
tie. -/
theorem merge_last_writer_wins_witness :
    mergeLww ⟨"t", "r", "a", 0, 1, none⟩ ⟨"t", "r", "b", 0, 2, none⟩ =
      ⟨"t", "r", "b", 0, 2, none⟩ ∧
    mergeLww ⟨"t", "r", "a", 0, 3, none⟩ ⟨"t", "r", "b", 0, 2, none⟩ =
      ⟨"t", "r", "a", 0, 3, none⟩ ∧
    mergeLww ⟨"t", "r", "a", 0, 2, none⟩ ⟨"t", "r", "b", 0, 2, none⟩ =
      ⟨"t", "r", "b", 0, 2, none⟩ :=
  ⟨(merge_last_writer_wins ⟨"t", "r", "a", 0, 1, none⟩ ⟨"t", "r", "b", 0, 2, none⟩).1
      (by decide),
   (merge_last_writer_wins ⟨"t", "r", "a", 0, 3, none⟩ ⟨"t", "r", "b", 0, 2, none⟩).2.1
      (by decide),
   (merge_last_writer_wins ⟨"t", "r", "a", 0, 2, none⟩ ⟨"t", "r", "b", 0, 2, none⟩).2.2 rfl⟩

lemma drainLoop_applied_sublist (remote : QueueEntry → PushResult) (now : Nat) :
    ∀ l : List QueueEntry, List.Sublist (drainLoop remote now l).2 l := by
  intro l
  induction l with
  | nil => simp [drainLoop]
  | cons e rest ih =>
    cases hre : remote e with
    | applied =>
      simp only [drainLoop, hre]
      exact List.Sublist.cons₂ e ih
    | transient msg =>
      simp only [drainLoop, hre]
      exact List.nil_sublist _
    | permanent msg =>
      simp only [drainLoop, hre]
      exact List.Sublist.cons e ih

lemma drainLoop_transient_blocks (remote : QueueEntry → PushResult) (now : Nat) :
    ∀ l : List QueueEntry,
    List.Pairwise (fun a b => a.created_at ≤ b.created_at) l →
    ∀ (A B : QueueEntry) (msg : String), A ∈ l → remote A = .transient msg →
    B ∈ (drainLoop remote now l).2 → ¬ A.created_at < B.created_at := by
  intro l
  induction l with
  | nil =>
    intro _ A B msg hA
    simp at hA
  | cons e rest ih =>
    intro hpw A B msg hA hrA hB hlt
    have hpw2 := List.pairwise_cons.mp hpw
    cases hre : remote e with
    | applied =>
      simp only [drainLoop, hre] at hB
      rcases List.mem_cons.mp hB with rfl | hB2
      · rcases List.mem_cons.mp hA with rfl | hA2
        · rw [hre] at hrA
          exact PushResult.noConfusion hrA
        · have hle := hpw2.1 A hA2
          omega
      · rcases List.mem_cons.mp hA with rfl | hA2
        · rw [hre] at hrA
          exact PushResult.noConfusion hrA
        · exact ih hpw2.2 A B msg hA2 hrA hB2 hlt
    | transient msg2 =>
      simp [drainLoop, hre] at hB
    | permanent msg2 =>
      simp only [drainLoop, hre] at hB
      rcases List.mem_cons.mp hA with rfl | hA2
      · rw [hre] at hrA
        exact PushResult.noConfusion hrA
      · exact ih hpw2.2 A B msg hA2 hrA hB hlt

/-- C5: a drain pass processes pending entries in increasing `created_at`
order (the applied entries of a pass are sorted by `created_at`), and once a
transient failure defers an entry, no later-created entry is applied in that
pass. -/
theorem drain_ordering (remote : QueueEntry → PushResult) (now : Nat)
    (q : List QueueEntry) (A B : QueueEntry) (msg : String)
    (hA : A ∈ q) (hB : B ∈ q) (hrA : remote A = .transient msg)
    (hlt : A.created_at < B.created_at) :
    List.Pairwise (fun a b => a.created_at ≤ b.created_at) (drain remote now q).2 ∧
    B ∉ (drain remote now q).2 := by
  have hsorted : List.Pairwise (fun a b => a.created_at ≤ b.created_at)
      (q.mergeSort (fun a b => decide (a.created_at ≤ b.created_at))) := by
    have h1 := @List.sorted_mergeSort QueueEntry
      (fun a b => decide (a.created_at ≤ b.created_at))
      (fun a b c hab hbc => by
        simp only [decide_eq_true_eq] at hab hbc ⊢
        omega)
      (fun a b => by
        rcases Nat.le_total a.created_at b.created_at with h | h <;> simp [h])
      q
    exact h1.imp (fun h => by simpa using h)
  constructor
  · exact hsorted.sublist (drainLoop_applied_sublist remote now _)
  · intro hBmem
    exact drainLoop_transient_blocks remote now _ hsorted A B msg
      (List.mem_mergeSort.mpr hA) hrA hBmem hlt

/-- Witness for C5: with A (created_at 1) failing transiently and B
(created_at 2) behind it, B is not applied in the pass. -/
theorem drain_ordering_witness :
    List.Pairwise (fun a b => a.created_at ≤ b.created_at)
      (drain (fun e => if e.id == "A" then .transient "down" else .applied) 10
        [⟨"A", "t", "r1", .update, ⟨"t", "r1", "f", 0, 1, none⟩, 1, none, 0, none, none⟩,
         ⟨"B", "t", "r2", .update, ⟨"t", "r2", "g", 0, 2, none⟩, 2, none, 0, none, none⟩]).2 ∧
    (⟨"B", "t", "r2", .update, ⟨"t", "r2", "g", 0, 2, none⟩, 2, none, 0, none, none⟩ : QueueEntry) ∉
      (drain (fun e => if e.id == "A" then .transient "down" else .applied) 10
        [⟨"A", "t", "r1", .update, ⟨"t", "r1", "f", 0, 1, none⟩, 1, none, 0, none, none⟩,
         ⟨"B", "t", "r2", .update, ⟨"t", "r2", "g", 0, 2, none⟩, 2, none, 0, none, none⟩]).2 :=
  drain_ordering (fun e => if e.id == "A" then .transient "down" else .applied) 10
    [⟨"A", "t", "r1", .update, ⟨"t", "r1", "f", 0, 1, none⟩, 1, none, 0, none, none⟩,
     ⟨"B", "t", "r2", .update, ⟨"t", "r2", "g", 0, 2, none⟩, 2, none, 0, none, none⟩]
    ⟨"A", "t", "r1", .update, ⟨"t", "r1", "f", 0, 1, none⟩, 1, none, 0, none, none⟩
    ⟨"B", "t", "r2", .update, ⟨"t", "r2", "g", 0, 2, none⟩, 2, none, 0, none, none⟩
    "down" (by decide) (by decide) (by decide) (by decide)

lemma searchFire_step_none (c : CronExpr) (a b n : Nat) (t : DateTime)
    (hn : n = a + b) (h : searchFire c a t = none) :
    searchFire c n t = searchFire c b (addMin a t) := by
  subst hn
  induction a generalizing t with
  | zero => simp [addMin]
  | succ a ih =>
    rw [Nat.succ_add]
    simp only [searchFire] at h ⊢
    by_cases hm : cronMatches c (nextMinute t) = true
    · rw [if_pos hm] at h
      exact Option.noConfusion h
    · rw [if_neg hm] at h ⊢
      rw [ih (nextMinute t) h]
      rfl

lemma searchFire_step_some (c : CronExpr) (a b n : Nat) (t : DateTime)
    (r : DateTime) (hn : n = a + b) (h : searchFire c a t = some r) :
    searchFire c n t = some r := by
  subst hn
  induction a generalizing t with
  | zero => simp [searchFire] at h
  | succ a ih =>
    rw [Nat.succ_add]
    simp only [searchFire] at h ⊢
    by_cases hm : cronMatches c (nextMinute t) = true
    · rw [if_pos hm] at h ⊢
      exact h
    · rw [if_neg hm] at h ⊢
      exact ih (nextMinute t) h

lemma searchFire_first (c : CronExpr) :
    ∀ (fuel : Nat) (t r : DateTime), searchFire c fuel t = some r →
    ∃ n, 1 ≤ n ∧ n ≤ fuel ∧ r = nextMinute^[n] t ∧ cronMatches c r = true ∧
      ∀ m, 1 ≤ m → m < n → cronMatches c (nextMinute^[m] t) = false := by
  intro fuel
  induction fuel with
  | zero =>
    intro t r h
    simp [searchFire] at h
  | succ fuel ih =>
    intro t r h
    simp only [searchFire] at h
    by_cases hm : cronMatches c (nextMinute t) = true
    · rw [if_pos hm] at h
      injection h with h2
      refine ⟨1, le_refl 1, by omega, ?_, ?_, ?_⟩
      · rw [← h2]
        simp
      · rw [← h2]
        exact hm
      · intro m hm1 hmlt
        omega
    · rw [if_neg hm] at h
      obtain ⟨n, hn1, hn2, hr, hcr, hprev⟩ := ih (nextMinute t) r h
      refine ⟨n + 1, by omega, by omega, ?_, hcr, ?_⟩
      · rw [hr, Function.iterate_succ_apply]
      · intro m hm1 hmlt
        cases m with
        | zero => omega
        | succ k =>
          rw [Function.iterate_succ_apply]
          cases Nat.eq_zero_or_pos k with
          | inl h0 =>
            subst h0
            simpa using hm
          | inr hpos =>
            exact hprev k hpos (by omega)

set_option maxRecDepth 200000 in
set_option maxHeartbeats 4000000 in
/-- C3: `computeNextFire` returns the earliest timestamp strictly after
`after` satisfying all restricted cron fields — the result matches the
expression, is a positive number n of minute-steps after `after`, and every
strictly earlier minute-step fails the expression; and on the schema's
default `0 9 2 * *` expression it maps 2024-03-02T10:00 to 2024-04-02T09:00
and 2024-03-01T00:00 to 2024-03-02T09:00. -/
theorem compute_next_fire_correct :
    (∀ (c : CronExpr) (after t : DateTime), computeNextFire c after = some t →
      cronMatches c t = true ∧
      ∃ n, 1 ≤ n ∧ t = nextMinute^[n] after ∧
        ∀ m, 1 ≤ m → m < n → cronMatches c (nextMinute^[m] after) = false) ∧
    computeNextFire monthlyCheckinCron ⟨2024, 3, 2, 10, 0⟩ = some ⟨2024, 4, 2, 9, 0⟩ ∧
    computeNextFire monthlyCheckinCron ⟨2024, 3, 1, 0, 0⟩ = some ⟨2024, 3, 2, 9, 0⟩ := by
  refine ⟨?_, ?_, ?_⟩
  · intro c after t h
    obtain ⟨n, hn1, _, hr, hc, hprev⟩ := searchFire_first c 1054080 after t h
    exact ⟨hc, n, hn1, hr, hprev⟩
  · show searchFire monthlyCheckinCron 1054080 ⟨2024, 3, 2, 10, 0⟩ =
      some ⟨2024, 4, 2, 9, 0⟩
    rw [searchFire_step_none monthlyCheckinCron 1440 1052640 1054080 (⟨2024, 3, 2, 10, 0⟩ : DateTime)
      (by norm_num) (by decide)]
    rw [(by decide : addMin 1440 (⟨2024, 3, 2, 10, 0⟩ : DateTime) = (⟨2024, 3, 3, 10, 0⟩ : DateTime))]
    rw [searchFire_step_none monthlyCheckinCron 1440 1051200 1052640 (⟨2024, 3, 3, 10, 0⟩ : DateTime)
      (by norm_num) (by decide)]
    rw [(by decide : addMin 1440 (⟨2024, 3, 3, 10, 0⟩ : DateTime) = (⟨2024, 3, 4, 10, 0⟩ : DateTime))]
    rw [searchFire_step_none monthlyCheckinCron 1440 1049760 1051200 (⟨2024, 3, 4, 10, 0⟩ : DateTime)
      (by norm_num) (by decide)]
    rw [(by decide : addMin 1440 (⟨2024, 3, 4, 10, 0⟩ : DateTime) = (⟨2024, 3, 5, 10, 0⟩ : DateTime))]
    rw [searchFire_step_none monthlyCheckinCron 1440 1048320 1049760 (⟨2024, 3, 5, 10, 0⟩ : DateTime)
      (by norm_num) (by decide)]
    rw [(by decide : addMin 1440 (⟨2024, 3, 5, 10, 0⟩ : DateTime) = (⟨2024, 3, 6, 10, 0⟩ : DateTime))]
    rw [searchFire_step_none monthlyCheckinCron 1440 1046880 1048320 (⟨2024, 3, 6, 10, 0⟩ : DateTime)
      (by norm_num) (by decide)]
    rw [(by decide : addMin 1440 (⟨2024, 3, 6, 10, 0⟩ : DateTime) = (⟨2024, 3, 7, 10, 0⟩ : DateTime))]
    rw [searchFire_step_none monthlyCheckinCron 1440 1045440 1046880 (⟨2024, 3, 7, 10, 0⟩ : DateTime)
      (by norm_num) (by decide)]
    rw [(by decide : addMin 1440 (⟨2024, 3, 7, 10, 0⟩ : DateTime) = (⟨2024, 3, 8, 10, 0⟩ : DateTime))]
    rw [searchFire_step_none monthlyCheckinCron 1440 1044000 1045440 (⟨2024, 3, 8, 10, 0⟩ : DateTime)
      (by norm_num) (by decide)]
    rw [(by decide : addMin 1440 (⟨2024, 3, 8, 10, 0⟩ : DateTime) = (⟨2024, 3, 9, 10, 0⟩ : DateTime))]
    rw [searchFire_step_none monthlyCheckinCron 1440 1042560 1044000 (⟨2024, 3, 9, 10, 0⟩ : DateTime)
      (by norm_num) (by decide)]
    rw [(by decide : addMin 1440 (⟨2024, 3, 9, 10, 0⟩ : DateTime) = (⟨2024, 3, 10, 10, 0⟩ : DateTime))]
    rw [searchFire_step_none monthlyCheckinCron 1440 1041120 1042560 (⟨2024, 3, 10, 10, 0⟩ : DateTime)
      (by norm_num) (by decide)]
    rw [(by decide : addMin 1440 (⟨2024, 3, 10, 10, 0⟩ : DateTime) = (⟨2024, 3, 11, 10, 0⟩ : DateTime))]
    rw [searchFire_step_none monthlyCheckinCron 1440 1039680 1041120 (⟨2024, 3, 11, 10, 0⟩ : DateTime)
      (by norm_num) (by decide)]
    rw [(by decide : addMin 1440 (⟨2024, 3, 11, 10, 0⟩ : DateTime) = (⟨2024, 3, 12, 10, 0⟩ : DateTime))]
    rw [searchFire_step_none monthlyCheckinCron 1440 1038240 1039680 (⟨2024, 3, 12, 10, 0⟩ : DateTime)
      (by norm_num) (by decide)]
    rw [(by decide : addMin 1440 (⟨2024, 3, 12, 10, 0⟩ : DateTime) = (⟨2024, 3, 13, 10, 0⟩ : DateTime))]
    rw [searchFire_step_none monthlyCheckinCron 1440 1036800 1038240 (⟨2024, 3, 13, 10, 0⟩ : DateTime)
      (by norm_num) (by decide)]
    rw [(by decide : addMin 1440 (⟨2024, 3, 13, 10, 0⟩ : DateTime) = (⟨2024, 3, 14, 10, 0⟩ : DateTime))]
    rw [searchFire_step_none monthlyCheckinCron 1440 1035360 1036800 (⟨2024, 3, 14, 10, 0⟩ : DateTime)
      (by norm_num) (by decide)]
    rw [(by decide : addMin 1440 (⟨2024, 3, 14, 10, 0⟩ : DateTime) = (⟨2024, 3, 15, 10, 0⟩ : DateTime))]
    rw [searchFire_step_none monthlyCheckinCron 1440 1033920 1035360 (⟨2024, 3, 15, 10, 0⟩ : DateTime)
      (by norm_num) (by decide)]
    rw [(by decide : addMin 1440 (⟨2024, 3, 15, 10, 0⟩ : DateTime) = (⟨2024, 3, 16, 10, 0⟩ : DateTime))]
    rw [searchFire_step_none monthlyCheckinCron 1440 1032480 1033920 (⟨2024, 3, 16, 10, 0⟩ : DateTime)
      (by norm_num) (by decide)]
    rw [(by decide : addMin 1440 (⟨2024, 3, 16, 10, 0⟩ : DateTime) = (⟨2024, 3, 17, 10, 0⟩ : DateTime))]
    rw [searchFire_step_none monthlyCheckinCron 1440 1031040 1032480 (⟨2024, 3, 17, 10, 0⟩ : DateTime)
      (by norm_num) (by decide)]
    rw [(by decide : addMin 1440 (⟨2024, 3, 17, 10, 0⟩ : DateTime) = (⟨2024, 3, 18, 10, 0⟩ : DateTime))]
    rw [searchFire_step_none monthlyCheckinCron 1440 1029600 1031040 (⟨2024, 3, 18, 10, 0⟩ : DateTime)
      (by norm_num) (by decide)]
    rw [(by decide : addMin 1440 (⟨2024, 3, 18, 10, 0⟩ : DateTime) = (⟨2024, 3, 19, 10, 0⟩ : DateTime))]
    rw [searchFire_step_none monthlyCheckinCron 1440 1028160 1029600 (⟨2024, 3, 19, 10, 0⟩ : DateTime)
      (by norm_num) (by decide)]
    rw [(by decide : addMin 1440 (⟨2024, 3, 19, 10, 0⟩ : DateTime) = (⟨2024, 3, 20, 10, 0⟩ : DateTime))]
    rw [searchFire_step_none monthlyCheckinCron 1440 1026720 1028160 (⟨2024, 3, 20, 10, 0⟩ : DateTime)
      (by norm_num) (by decide)]
    rw [(by decide : addMin 1440 (⟨2024, 3, 20, 10, 0⟩ : DateTime) = (⟨2024, 3, 21, 10, 0⟩ : DateTime))]
    rw [searchFire_step_none monthlyCheckinCron 1440 1025280 1026720 (⟨2024, 3, 21, 10, 0⟩ : DateTime)
      (by norm_num) (by decide)]
    rw [(by decide : addMin 1440 (⟨2024, 3, 21, 10, 0⟩ : DateTime) = (⟨2024, 3, 22, 10, 0⟩ : DateTime))]
    rw [searchFire_step_none monthlyCheckinCron 1440 1023840 1025280 (⟨2024, 3, 22, 10, 0⟩ : DateTime)
      (by norm_num) (by decide)]
    rw [(by decide : addMin 1440 (⟨2024, 3, 22, 10, 0⟩ : DateTime) = (⟨2024, 3, 23, 10, 0⟩ : DateTime))]
    rw [searchFire_step_none monthlyCheckinCron 1440 1022400 1023840 (⟨2024, 3, 23, 10, 0⟩ : DateTime)
      (by norm_num) (by decide)]
    rw [(by decide : addMin 1440 (⟨2024, 3, 23, 10, 0⟩ : DateTime) = (⟨2024, 3, 24, 10, 0⟩ : DateTime))]
    rw [searchFire_step_none monthlyCheckinCron 1440 1020960 1022400 (⟨2024, 3, 24, 10, 0⟩ : DateTime)
      (by norm_num) (by decide)]
    rw [(by decide : addMin 1440 (⟨2024, 3, 24, 10, 0⟩ : DateTime) = (⟨2024, 3, 25, 10, 0⟩ : DateTime))]
    rw [searchFire_step_none monthlyCheckinCron 1440 1019520 1020960 (⟨2024, 3, 25, 10, 0⟩ : DateTime)
      (by norm_num) (by decide)]
    rw [(by decide : addMin 1440 (⟨2024, 3, 25, 10, 0⟩ : DateTime) = (⟨2024, 3, 26, 10, 0⟩ : DateTime))]
    rw [searchFire_step_none monthlyCheckinCron 1440 1018080 1019520 (⟨2024, 3, 26, 10, 0⟩ : DateTime)
      (by norm_num) (by decide)]
    rw [(by decide : addMin 1440 (⟨2024, 3, 26, 10, 0⟩ : DateTime) = (⟨2024, 3, 27, 10, 0⟩ : DateTime))]
    rw [searchFire_step_none monthlyCheckinCron 1440 1016640 1018080 (⟨2024, 3, 27, 10, 0⟩ : DateTime)
      (by norm_num) (by decide)]
    rw [(by decide : addMin 1440 (⟨2024, 3, 27, 10, 0⟩ : DateTime) = (⟨2024, 3, 28, 10, 0⟩ : DateTime))]
    rw [searchFire_step_none monthlyCheckinCron 1440 1015200 1016640 (⟨2024, 3, 28, 10, 0⟩ : DateTime)
      (by norm_num) (by decide)]
    rw [(by decide : addMin 1440 (⟨2024, 3, 28, 10, 0⟩ : DateTime) = (⟨2024, 3, 29, 10, 0⟩ : DateTime))]
    rw [searchFire_step_none monthlyCheckinCron 1440 1013760 1015200 (⟨2024, 3, 29, 10, 0⟩ : DateTime)
      (by norm_num) (by decide)]
    rw [(by decide : addMin 1440 (⟨2024, 3, 29, 10, 0⟩ : DateTime) = (⟨2024, 3, 30, 10, 0⟩ : DateTime))]
    rw [searchFire_step_none monthlyCheckinCron 1440 1012320 1013760 (⟨2024, 3, 30, 10, 0⟩ : DateTime)
      (by norm_num) (by decide)]
    rw [(by decide : addMin 1440 (⟨2024, 3, 30, 10, 0⟩ : DateTime) = (⟨2024, 3, 31, 10, 0⟩ : DateTime))]
    rw [searchFire_step_none monthlyCheckinCron 1440 1010880 1012320 (⟨2024, 3, 31, 10, 0⟩ : DateTime)
      (by norm_num) (by decide)]
    rw [(by decide : addMin 1440 (⟨2024, 3, 31, 10, 0⟩ : DateTime) = (⟨2024, 4, 1, 10, 0⟩ : DateTime))]
    rw [searchFire_step_some monthlyCheckinCron 1440 1009440 1010880 (⟨2024, 4, 1, 10, 0⟩ : DateTime)
      (⟨2024, 4, 2, 9, 0⟩ : DateTime) (by norm_num) (by decide)]
  · show searchFire monthlyCheckinCron 1054080 ⟨2024, 3, 1, 0, 0⟩ =
      some ⟨2024, 3, 2, 9, 0⟩
    rw [searchFire_step_none monthlyCheckinCron 1440 1052640 1054080 (⟨2024, 3, 1, 0, 0⟩ : DateTime)
      (by norm_num) (by decide)]
    rw [(by decide : addMin 1440 (⟨2024, 3, 1, 0, 0⟩ : DateTime) = (⟨2024, 3, 2, 0, 0⟩ : DateTime))]
    rw [searchFire_step_some monthlyCheckinCron 1440 1051200 1052640 (⟨2024, 3, 2, 0, 0⟩ : DateTime)
      (⟨2024, 3, 2, 9, 0⟩ : DateTime) (by norm_num) (by decide)]

/-- Witness for C3: the earliest-fire characterization instantiated at the
default expression and after = 2024-03-01T00:00. -/
theorem compute_next_fire_witness :
    cronMatches monthlyCheckinCron ⟨2024, 3, 2, 9, 0⟩ = true ∧
    ∃ n, 1 ≤ n ∧ (⟨2024, 3, 2, 9, 0⟩ : DateTime) = nextMinute^[n] ⟨2024, 3, 1, 0, 0⟩ ∧
      ∀ m, 1 ≤ m → m < n →
        cronMatches monthlyCheckinCron (nextMinute^[m] ⟨2024, 3, 1, 0, 0⟩) = false :=
  compute_next_fire_correct.1 monthlyCheckinCron ⟨2024, 3, 1, 0, 0⟩ ⟨2024, 3, 2, 9, 0⟩
    compute_next_fire_correct.2.2

/-- C7: scheduling is idempotent.  Calling `schedule` twice with the same
rule, quiet hours and `now` leaves exactly one unsent ScheduledNotification
for the (type, goal reference, truncated fire time) key, and one `schedule`
call never raises the per-key unsent count above one. -/
theorem schedule_idempotent :
    (∀ (c : CronExpr) (q : QuietHours) (now : DateTime) (ty : String) (g : Option String)
        (title body nid1 nid2 : String) (user : Option String) (created : String)
        (tbl : List ScheduledNotificationRow) (t : DateTime),
      scheduleFireTime c q now = some t →
      unsentDuplicates tbl ty g t = [] →
      ∃ tbl1 tbl2,
        schedule c q now ty g title body nid1 user created tbl = some tbl1 ∧
        schedule c q now ty g title body nid2 user created tbl1 = some tbl2 ∧
        (unsentDuplicates tbl2 ty g t).length = 1) ∧
    (∀ (c : CronExpr) (q : QuietHours) (now : DateTime) (ty : String) (g : Option String)
        (title body nid : String) (user : Option String) (created : String)
        (tbl tbl2 : List ScheduledNotificationRow) (ty2 : String) (g2 : Option String)
        (ts : DateTime),
      schedule c q now ty g title body nid user created tbl = some tbl2 →
      (unsentDuplicates tbl ty2 g2 ts).length ≤ 1 →
      (unsentDuplicates tbl2 ty2 g2 ts).length ≤ 1) := by
  constructor
  · intro c q now ty g title body nid1 nid2 user created tbl t hfire hdup
    have hs1 : schedule c q now ty g title body nid1 user created tbl =
        some (tbl ++ [⟨nid1, user, ty, g, title, body, t, none, none, created⟩]) := by
      unfold schedule
      simp only [hfire]
      rw [if_pos (by rw [hdup]; rfl)]
    have hd1 : unsentDuplicates
        (tbl ++ [⟨nid1, user, ty, g, title, body, t, none, none, created⟩]) ty g t =
        [⟨nid1, user, ty, g, title, body, t, none, none, created⟩] := by
      unfold unsentDuplicates at hdup ⊢
      rw [List.filter_append, hdup]
      simp
    have hs2 : schedule c q now ty g title body nid2 user created
        (tbl ++ [⟨nid1, user, ty, g, title, body, t, none, none, created⟩]) =
        some (tbl ++ [⟨nid1, user, ty, g, title, body, t, none, none, created⟩]) := by
      unfold schedule
      simp only [hfire]
      rw [if_neg (by rw [hd1]; simp)]
    refine ⟨_, _, hs1, hs2, ?_⟩
    rw [hd1]
    rfl
  · intro c q now ty g title body nid user created tbl tbl2 ty2 g2 ts hsch hle
    unfold schedule at hsch
    cases hfire : scheduleFireTime c q now with
    | none =>
      rw [hfire] at hsch
      exact Option.noConfusion hsch
    | some t =>
      simp only [hfire] at hsch
      by_cases hemp : (unsentDuplicates tbl ty g t).isEmpty = true
      · rw [if_pos hemp] at hsch
        injection hsch with hsch
        subst hsch
        unfold unsentDuplicates at hle ⊢
        rw [List.filter_append, List.length_append]
        by_cases hm2 : (fun s : ScheduledNotificationRow =>
            s.notification_type == ty2 && s.goal_id == g2 &&
            s.scheduled_at == ts && s.sent_at.isNone)
            ⟨nid, user, ty, g, title, body, t, none, none, created⟩ = true
        · have hkeys : ty = ty2 ∧ g = g2 ∧ t = ts := by
            simp only [Bool.and_eq_true, beq_iff_eq] at hm2
            exact ⟨hm2.1.1.1, hm2.1.1.2, hm2.1.2⟩
          obtain ⟨e1, e2, e3⟩ := hkeys
          subst e1
          subst e2
          subst e3
          have hnil : tbl.filter (fun s => s.notification_type == ty &&
              s.goal_id == g && s.scheduled_at == t && s.sent_at.isNone) = [] := by
            unfold unsentDuplicates at hemp
            simpa using hemp
          rw [hnil]
          simp
        · have : List.filter (fun s : ScheduledNotificationRow =>
              s.notification_type == ty2 && s.goal_id == g2 &&
              s.scheduled_at == ts && s.sent_at.isNone)
              [⟨nid, user, ty, g, title, body, t, none, none, created⟩] = [] := by
            rw [List.filter_cons]
            rw [if_neg hm2]
            rfl
          rw [this]
          simpa using hle
      · rw [if_neg hemp] at hsch
        injection hsch with hsch
        subst hsch
        exact hle

/-- Witness for C7: scheduling the monthly check-in twice from an empty
table at 2024-03-02T08:59 leaves exactly one unsent notification for
2024-03-02T09:00. -/
theorem schedule_idempotent_witness :
    ∃ tbl1 tbl2,
      schedule monthlyCheckinCron ⟨false, 1320, 480⟩ ⟨2024, 3, 2, 8, 59⟩ "monthly_checkin"
        none "Check in" "body" "n1" none "c0" [] = some tbl1 ∧
      schedule monthlyCheckinCron ⟨false, 1320, 480⟩ ⟨2024, 3, 2, 8, 59⟩ "monthly_checkin"
        none "Check in" "body" "n2" none "c0" tbl1 = some tbl2 ∧
      (unsentDuplicates tbl2 "monthly_checkin" none ⟨2024, 3, 2, 9, 0⟩).length = 1 :=
  schedule_idempotent.1 monthlyCheckinCron ⟨false, 1320, 480⟩ ⟨2024, 3, 2, 8, 59⟩
    "monthly_checkin" none "Check in" "body" "n1" "n2" none "c0" [] ⟨2024, 3, 2, 9, 0⟩
    (by decide) rfl

/-- C8: with quiet hours 22:00–08:00 (wrapping midnight), `isQuietHour`
classifies exactly the pre-midnight (≥ 22:00) and post-midnight (< 08:00)
segments as quiet, and the quiet-hours adjustment used by `schedule` defers
a computed fire time of 23:30 to 08:00 on the next day. -/
theorem quiet_hours_wrap :
    (∀ t : DateTime, isQuietHour t ⟨true, 1320, 480⟩ = true ↔
      (1320 ≤ minuteOfDay t ∨ minuteOfDay t < 480)) ∧
    deferToQuietEnd ⟨2024, 3, 1, 23, 30⟩ ⟨true, 1320, 480⟩ = ⟨2024, 3, 2, 8, 0⟩ ∧
    adjustFire ⟨.any, .any, .any, .any, .any⟩ ⟨true, 1320, 480⟩ 8 ⟨2024, 3, 1, 23, 30⟩ =
      some ⟨2024, 3, 2, 8, 0⟩ := by
  refine ⟨?_, by decide, by decide⟩
  intro t
  unfold isQuietHour
  rw [if_neg (by norm_num)]
  simp

end Goaldy
